import Mathlib

/-!
Shallow embedding of the `glin-client` gradient utilities
(`src/python/utils/compression.py` and `src/python/utils/gradient.py`).

Tensors are modelled as a shape (list of dimensions) together with the
flattened element list.  Exact rational numbers stand in for the 32-bit
floats of the compression codec; the norm-based functions of
`gradient.py` (which take real square roots) are modelled over the real
numbers.  Python `dict`s keyed by parameter name become association
lists, and Python exceptions become an explicit error type returned
through `Except`.
-/

set_option autoImplicit false

deriving instance DecidableEq for Except

namespace GlinClient

/-- Failure modes of the Python code, one constructor per exception class
actually raised (plus `shapeMismatch`, the typed error the specification
asks for, which lets theorems state that the code never produces it):
`emptyInput` stands for the `ValueError` that Python's `max()` / `min()`
raise on an empty sequence, `keyError` for a `dict` lookup miss,
`runtimeError` for a torch shape fault, and `unknownMethod` for the
`ValueError("Unknown compression method: ...")` raised by the codec. -/
inductive Err where
  | emptyInput
  | keyError
  | runtimeError
  | unknownMethod
  | shapeMismatch
  deriving DecidableEq, Repr

/-- A torch tensor: its shape and its flattened (row-major) elements. -/
structure Tensor (α : Type) where
  shape : List ℕ
  data : List α
  deriving DecidableEq, Repr

/-- A gradient dictionary: an ordered mapping from parameter name to tensor. -/
abbrev GradientSet (α : Type) := List (String × Tensor α)

/-! ### List helpers shared by the embedded functions -/

/-- `tensor.min().item()`: the least element of a list (`0` is junk for the
empty list; torch raises on an empty tensor and every theorem that uses
this assumes a non-empty one). -/
def minList (l : List ℚ) : ℚ :=
  match l with
  | [] => 0
  | x :: xs => xs.foldl min x

/-- `tensor.max().item()`: the greatest element of a list (`0` is junk for
the empty list, as in `minList`). -/
def maxList (l : List ℚ) : ℚ :=
  match l with
  | [] => 0
  | x :: xs => xs.foldl max x

/-- `torch.round`: round half to even, the IEEE rounding used by torch. -/
def rhe (q : ℚ) : ℤ :=
  let f := ⌊q⌋
  let r := q - f
  if r < 1/2 then f
  else if 1/2 < r then f + 1
  else if 2 ∣ f then f else f + 1

/-- `Tensor.clamp(lo, hi)` on one integer element. -/
def clampI (z lo hi : ℤ) : ℤ := max lo (min z hi)

/-- `torch.sign` on one element. -/
def sgn (q : ℚ) : ℚ := if 0 < q then 1 else if q < 0 then -1 else 0

/-- Index/value pairs of a flattened tensor, indices starting at `i`
(the index space that `torch.topk` reports into). -/
def enumFromQ (i : ℕ) : List ℚ → List (ℕ × ℚ)
  | [] => []
  | x :: xs => (i, x) :: enumFromQ (i + 1) xs

/-- Comparison used to order `(index, element)` pairs for `torch.topk`:
larger absolute value first, ties broken by the smaller index
(a fixed deterministic order, as the spec requires of topk's tie-breaking). -/
def pairLe (a b : ℕ × ℚ) : Bool :=
  decide (|b.2| < |a.2| ∨ (|a.2| = |b.2| ∧ a.1 ≤ b.1))

/-- Insertion step of the sort behind `torch.topk`. -/
def insertPair (a : ℕ × ℚ) : List (ℕ × ℚ) → List (ℕ × ℚ)
  | [] => [a]
  | b :: bs => if pairLe a b then a :: b :: bs else b :: insertPair a bs

/-- Sort the `(index, element)` pairs by decreasing absolute value. -/
def sortPairs : List (ℕ × ℚ) → List (ℕ × ℚ)
  | [] => []
  | a :: as => insertPair a (sortPairs as)

/-- `torch.topk(flat.abs(), k)`, returned as the chosen `(index, element)`
pairs of the flattened tensor (the Python code receives the absolute
values and the indices; carrying the signed element loses nothing since
the element is recovered below exactly as the code does, via
`flat[indices]`). -/
def topkPairs (flat : List ℚ) (k : ℕ) : List (ℕ × ℚ) :=
  (sortPairs (enumFromQ 0 flat)).take k

/-- `dense_grad[indices] = values`: scatter the pairs into a buffer.  The
vectorised torch write is modelled as a left-to-right sequence of updates
(the indices produced by `topk` are pairwise distinct, so the order is
immaterial).  An out-of-range index is a no-op here where torch would
raise; no reachable call site produces one. -/
def scatter (d : List ℚ) : List (ℕ × ℚ) → List ℚ
  | [] => d
  | (i, v) :: rest => scatter (d.set i v) rest

/-! ### Quantizer (`compression.py`, `quantize_gradients` / `dequantize_gradients`) -/

/-- Stored quantized tensor: same shape, one unsigned byte per element. -/
structure QTensor where
  shape : List ℕ
  data : List ℕ
  deriving DecidableEq, Repr

/-- Per-tensor quantization parameters `{'scale': ..., 'zero_point': ...}`. -/
structure QParams where
  scale : ℚ
  zero_point : ℚ
  deriving DecidableEq, Repr

/-- The dict `{'gradients': ..., 'params': ...}` returned by
`quantize_gradients`. -/
structure QuantizedData where
  gradients : List (String × QTensor)
  params : List (String × QParams)
  deriving DecidableEq, Repr

/-- `scale = (max_val - min_val) / (2 ** num_bits - 1)` for one tensor. -/
def scaleOf (num_bits : ℕ) (t : Tensor ℚ) : ℚ :=
  (maxList t.data - minList t.data) / ((2 : ℚ) ^ num_bits - 1)

/-- The clamped rounded quantization level of one element, before the cast
to `torch.uint8`: `((x - zero_point) / scale).round().clamp(0, 2**num_bits - 1)`. -/
def quantLevel (num_bits : ℕ) (lo scale x : ℚ) : ℤ :=
  clampI (rhe ((x - lo) / scale)) 0 ((2 : ℤ) ^ num_bits - 1)

/-- Body of the loop of `quantize_gradients` for one tensor.  The final
`.to(torch.uint8)` stores each (non-negative) level in one byte, i.e.
reduces it modulo `2^8`. -/
def quantizeTensor (num_bits : ℕ) (t : Tensor ℚ) : QTensor × QParams :=
  let lo := minList t.data
  let scale := scaleOf num_bits t
  if 0 < scale then
    (⟨t.shape, t.data.map (fun x => (quantLevel num_bits lo scale x).toNat % 2 ^ 8)⟩,
     ⟨scale, lo⟩)
  else
    (⟨t.shape, t.data.map (fun _ => 0)⟩, ⟨0, lo⟩)

/-- `quantize_gradients(gradients, num_bits)`. -/
def quantize_gradients (gradients : GradientSet ℚ) (num_bits : ℕ) : QuantizedData :=
  { gradients := gradients.map (fun p => (p.1, (quantizeTensor num_bits p.2).1)),
    params := gradients.map (fun p => (p.1, (quantizeTensor num_bits p.2).2)) }

/-- Association-list lookup with a default value.  `dequantize_gradients`
reads `params[name]`; a Python `KeyError` is impossible for payloads built
by `quantize_gradients`, whose two mappings carry exactly the same keys,
and those are the only payloads the theorems consider. -/
def lookupD {α : Type} (l : List (String × α)) (k : String) (d : α) : α :=
  match l.find? (fun p => p.1 == k) with
  | some p => p.2
  | none => d

/-- `dequantized_grad = quantized_grad.float() * scale + zero_point`. -/
def dequantizeTensor (q : QTensor) (p : QParams) : Tensor ℚ :=
  ⟨q.shape, q.data.map (fun v : ℕ => (v : ℚ) * p.scale + p.zero_point)⟩

/-- `dequantize_gradients(quantized_data)`. -/
def dequantize_gradients (qd : QuantizedData) : GradientSet ℚ :=
  qd.gradients.map (fun pr => (pr.1, dequantizeTensor pr.2 (lookupD qd.params pr.1 ⟨0, 0⟩)))

/-! ### Sparsifier (`compression.py`, `sparsify_gradients` / `densify_gradients`) -/

/-- One entry `{'values': ..., 'indices': ..., 'shape': ...}` of the sparse
dictionary. -/
structure SparseTensor where
  values : List ℚ
  indices : List ℕ
  shape : List ℕ
  deriving DecidableEq, Repr

/-- The dictionary returned by `sparsify_gradients`: parameter name to
sparse record (note: this dict carries no `'method'` key). -/
abbrev SparseData := List (String × SparseTensor)

/-- Body of the loop of `sparsify_gradients` for one tensor:
`k = int(numel * (1 - sparsity))` (Python `int()` truncates; the products
arising for `sparsity ≤ 1` are non-negative, where truncation is the
floor), bumped to `1` when zero, then `torch.topk` on the absolute
values, and `topk_values * topk_signs` restores the signed elements. -/
def sparsifyTensor (sparsity : ℚ) (t : Tensor ℚ) : SparseTensor :=
  let flat := t.data
  let k0 := (⌊(flat.length : ℚ) * (1 - sparsity)⌋).toNat
  let k := if k0 = 0 then 1 else k0
  let pairs := topkPairs flat k
  { values := pairs.map (fun p => |p.2| * sgn (flat.getD p.1 0)),
    indices := pairs.map Prod.fst,
    shape := t.shape }

/-- `sparsify_gradients(gradients, sparsity)`. -/
def sparsify_gradients (gradients : GradientSet ℚ) (sparsity : ℚ) : SparseData :=
  gradients.map (fun p => (p.1, sparsifyTensor sparsity p.2))

/-- Body of the loop of `densify_gradients` for one tensor: an all-zero
buffer of `prod(shape)` elements, scatter, reshape. -/
def densifyTensor (st : SparseTensor) : Tensor ℚ :=
  ⟨st.shape, scatter (List.replicate st.shape.prod 0) (st.indices.zip st.values)⟩

/-- `densify_gradients(sparse_gradients)`. -/
def densify_gradients (sd : SparseData) : GradientSet ℚ :=
  sd.map (fun p => (p.1, densifyTensor p.2))

/-! ### Codec facade (`compress_gradients` / `decompress_gradients`) -/

/-- The three shapes of dictionary `compress_gradients` can return:
`qenv` is the quantizer's `{'gradients': ..., 'params': ...}` (two fixed
keys, no `'method'` key), `senv` is the sparsifier's bare per-parameter
dictionary (its keys are the parameter names — no `'method'` key either),
and `nenv` is `{'gradients': ..., 'method': 'none'}`, the only envelope
that carries a method tag. -/
inductive Envelope where
  | qenv (qd : QuantizedData)
  | senv (sd : SparseData)
  | nenv (g : GradientSet ℚ)
  deriving DecidableEq

/-- `compress_gradients(gradients, method, **kwargs)`; unknown method
strings raise `ValueError`. -/
def compress_gradients (gradients : GradientSet ℚ) (method : String)
    (num_bits : ℕ) (sparsity : ℚ) : Except Err Envelope :=
  if method = "quantize" then .ok (.qenv (quantize_gradients gradients num_bits))
  else if method = "sparsify" then .ok (.senv (sparsify_gradients gradients sparsity))
  else if method = "none" then .ok (.nenv gradients)
  else .error .unknownMethod

/-- `decompress_gradients(compressed_data)`.  The Python code computes
`method = compressed_data.get('method', 'quantize')`.
* `qenv` has no `'method'` key, so the default `'quantize'` is used and
  `dequantize_gradients` happens to match the payload.
* `senv` has no `'method'` key either.  If no parameter is literally named
  `"method"`, the default `'quantize'` sends the sparse dictionary into
  `dequantize_gradients`, whose first access `compressed_data['gradients']`
  raises `KeyError` (when a parameter is named `"gradients"`, the
  subsequent look-ups `['params']`/`['scale']` into sparse records fail
  instead; every such path ends in a lookup fault, modelled uniformly as
  `keyError`).  If a parameter is named `"method"`, `.get` returns its
  sparse record, which equals none of the three strings, and the code
  raises `ValueError("Unknown compression method: ...")`.
  The dedicated `'sparsify'` branch of the Python function is therefore
  dead code: no producer ever attaches that tag.
* `nenv` carries `'method': 'none'` and returns its `'gradients'` entry. -/
def decompress_gradients (e : Envelope) : Except Err (GradientSet ℚ) :=
  match e with
  | .qenv qd => .ok (dequantize_gradients qd)
  | .senv sd =>
      if sd.any (fun p => p.1 == "method") then .error .unknownMethod
      else .error .keyError
  | .nenv g => .ok g

/-! ### Ratio estimator (`estimate_compression_ratio`) -/

/-- Total element count of a gradient set (`sum(grad.numel() ...)`). -/
def totalNumel (g : GradientSet ℚ) : ℕ :=
  (g.map (fun p => p.2.data.length)).sum

/-- `estimate_compression_ratio(original, compressed)`.  Branching follows
the Python tests on the compressed dictionary:
* `'params' in compressed` holds for `qenv` always, and for `senv` only in
  the pathological case of a parameter named `"params"` (the quantized
  branch then indexes sparse records and fails; modelled as `keyError`).
* otherwise `'values' in list(compressed.values())[0]` is evaluated: for an
  empty `senv` the `[0]` raises `IndexError` (modelled as `keyError`); for
  a non-empty `senv` the sparse records do contain `'values'`; for `nenv`
  the first value is the gradients dict, which contains `'values'` only if
  a parameter has that name (the sparse branch then subscripts tensors and
  fails; modelled as `runtimeError`).
* the final `else` charges the compressed data the original size. -/
def estimate_compression_ratio (original : GradientSet ℚ) (compressed : Envelope) :
    Except Err ℚ :=
  let original_size : ℕ := (original.map (fun p => p.2.data.length * 4)).sum
  match compressed with
  | .qenv qd =>
      let cs : ℕ := (qd.gradients.map (fun p => p.2.data.length)).sum + qd.params.length * 16
      .ok (if 0 < cs then (original_size : ℚ) / cs else 1)
  | .senv sd =>
      if sd.any (fun p => p.1 == "params") then .error .keyError
      else
        match sd with
        | [] => .error .keyError
        | _ :: _ =>
            let cs : ℕ :=
              (sd.map (fun p => p.2.values.length * 4 + p.2.indices.length * 4)).sum
            .ok (if 0 < cs then (original_size : ℚ) / cs else 1)
  | .nenv g =>
      if g.any (fun p => p.1 == "values") then .error .runtimeError
      else .ok (if 0 < original_size then (original_size : ℚ) / original_size else 1)

/-! ### Aggregation and statistics (`gradient.py`) -/

/-- `torch.zeros_like(grad)`. -/
def zerosLike (t : Tensor ℚ) : Tensor ℚ := ⟨t.shape, t.data.map (fun _ => 0)⟩

/-- Row-major multi-index of flat position `i` in `shape`. -/
def unflattenIdx : List ℕ → ℕ → List ℕ
  | [], _ => []
  | _ :: rest, i => (i / rest.prod) :: unflattenIdx rest (i % rest.prod)

/-- Row-major flat position of multi-index `idx` in `shape`. -/
def flattenIdx : List ℕ → List ℕ → ℕ
  | _ :: rest, j :: js => j * rest.prod + flattenIdx rest js
  | _, _ => 0

/-- torch's broadcast condition for writing `src` into a buffer of fixed
shape `dst` (in-place addition target): `src` has no more dimensions than
`dst`, and aligned at the trailing end each `src` dimension equals the
`dst` dimension or is `1`. -/
def broadcastableTo (src dst : List ℕ) : Bool :=
  src.length ≤ dst.length &&
    (src.reverse.zip dst.reverse).all (fun p => p.1 == p.2 || p.1 == 1)

/-- The element a broadcast `src` tensor contributes at multi-index `idx`
of the destination shape: drop the leading destination dimensions, send
every size-1 `src` dimension to coordinate `0`, and read the flattened
position. -/
def broadcastGet (src : Tensor ℚ) (idx : List ℕ) : ℚ :=
  let idxTail := idx.drop (idx.length - src.shape.length)
  let projected := (src.shape.zip idxTail).map (fun p => if p.1 = 1 then 0 else p.2)
  src.data.getD (flattenIdx src.shape projected) 0

/-- `aggregated[name] += grad`: torch in-place addition.  Equal shapes add
elementwise; a `grad` that merely broadcasts into the stored shape (each
trailing dimension equal or `1`) is added silently via the broadcast
rules; only a non-broadcastable shape raises a torch `RuntimeError`. -/
def addInPlace (a b : Tensor ℚ) : Except Err (Tensor ℚ) :=
  if a.shape = b.shape then
    .ok ⟨a.shape, (a.data.zip b.data).map (fun p => p.1 + p.2)⟩
  else if broadcastableTo b.shape a.shape then
    .ok ⟨a.shape, (List.range a.shape.prod).map
      (fun i => a.data.getD i 0 + broadcastGet b (unflattenIdx a.shape i))⟩
  else .error .runtimeError

/-- `aggregated[name]` on the left of `+=`: a plain `dict` lookup, raising
`KeyError` when the name is absent. -/
def lookupE {α : Type} (l : List (String × α)) (k : String) : Except Err α :=
  match l.find? (fun p => p.1 == k) with
  | some p => .ok p.2
  | none => .error .keyError

/-- Write back `aggregated[name] = t` for a name already present. -/
def updateAssoc {α : Type} (l : List (String × α)) (k : String) (v : α) :
    List (String × α) :=
  l.map (fun p => if p.1 == k then (k, v) else p)

/-- Body of the inner loop of `aggregate_gradients`:
`aggregated[name] += grad` for one `(name, grad)` item. -/
def addOne (acc : GradientSet ℚ) (p : String × Tensor ℚ) : Except Err (GradientSet ℚ) := do
  let t ← lookupE acc p.1
  let t2 ← addInPlace t p.2
  pure (updateAssoc acc p.1 t2)

/-- Inner loop of `aggregate_gradients`: fold one gradient dictionary into
the accumulator. -/
def addSet (acc : GradientSet ℚ) (g : GradientSet ℚ) : Except Err (GradientSet ℚ) :=
  g.foldlM addOne acc

/-- `aggregate_gradients(gradient_list)`: an empty list returns the empty
dictionary; otherwise zeros shaped like the first set, a sum over every
set (the first included), then division by the number of sets. -/
def aggregate_gradients (gradient_list : List (GradientSet ℚ)) :
    Except Err (GradientSet ℚ) :=
  match gradient_list with
  | [] => .ok []
  | g0 :: _ => do
      let init := g0.map (fun p => (p.1, zerosLike p.2))
      let summed ← gradient_list.foldlM addSet init
      pure (summed.map
        (fun p => (p.1, ⟨p.2.shape, p.2.data.map (fun x => x / (gradient_list.length : ℚ))⟩)))

/-! ### Norms, clipping and statistics, over the reals
(`compute_gradient_norm` takes a square root, so this part of the
embedding lives in `ℝ`). -/

/-- Sum of squared elements of one tensor. -/
def ssq (t : Tensor ℝ) : ℝ := (t.data.map (fun x => x ^ 2)).sum

/-- `grad.norm(2).item()`. -/
noncomputable def tensorNorm (t : Tensor ℝ) : ℝ := Real.sqrt (ssq t)

/-- `compute_gradient_norm(gradients)`: `sqrt` of the sum of the squared
per-tensor norms. -/
noncomputable def compute_gradient_norm (g : GradientSet ℝ) : ℝ :=
  Real.sqrt ((g.map (fun p => tensorNorm p.2 ^ 2)).sum)

/-- `clip_gradients(gradients, max_norm)`. -/
noncomputable def clip_gradients (g : GradientSet ℝ) (max_norm : ℝ) : GradientSet ℝ :=
  let current_norm := compute_gradient_norm g
  if max_norm < current_norm then
    let clip_coef := max_norm / (current_norm + 1 / 1000000)
    g.map (fun p => (p.1, ⟨p.2.shape, p.2.data.map (fun x => x * clip_coef)⟩))
  else g

/-- Python `max()` over a sequence: `ValueError` on the empty one
(the empty-input failure of the statistics contract). -/
def listMaxE (l : List ℝ) : Except Err ℝ :=
  match l with
  | [] => .error .emptyInput
  | x :: xs => .ok (xs.foldl max x)

/-- Python `min()` over a sequence: `ValueError` on the empty one. -/
def listMinE (l : List ℝ) : Except Err ℝ :=
  match l with
  | [] => .error .emptyInput
  | x :: xs => .ok (xs.foldl min x)

/-- `grad.abs().max().item()` (junk `0` on an empty tensor, where torch
would raise; no theorem uses that case). -/
def tensorAbsMax (t : Tensor ℝ) : ℝ :=
  match t.data.map (fun x => |x|) with
  | [] => 0
  | x :: xs => xs.foldl max x

/-- `grad.abs().min().item()` (junk `0` on an empty tensor). -/
def tensorAbsMin (t : Tensor ℝ) : ℝ :=
  match t.data.map (fun x => |x|) with
  | [] => 0
  | x :: xs => xs.foldl min x

/-- `grad.mean().item()`. -/
noncomputable def tensorMean (t : Tensor ℝ) : ℝ := t.data.sum / (t.data.length : ℝ)

/-- The record returned by `gradient_statistics`. -/
structure GradStats where
  num_parameters : ℕ
  total_elements : ℕ
  l2_norm : ℝ
  max_value : ℝ
  min_value : ℝ
  mean_value : ℝ

/-- `gradient_statistics(gradients)`: on an empty dictionary the generator
fed to `max()` is empty and Python raises
`ValueError("max() arg is an empty sequence")` — the empty-input failure
(the later division by `len(gradients)` would be the other ill-defined
step, but the `max()` fault fires first). -/
noncomputable def gradient_statistics (g : GradientSet ℝ) : Except Err GradStats := do
  let maxv ← listMaxE (g.map (fun p => tensorAbsMax p.2))
  let minv ← listMinE (g.map (fun p => tensorAbsMin p.2))
  pure
    { num_parameters := g.length,
      total_elements := (g.map (fun p => p.2.data.length)).sum,
      l2_norm := compute_gradient_norm g,
      max_value := maxv,
      min_value := minv,
      mean_value := (g.map (fun p => tensorMean p.2)).sum / (g.length : ℝ) }

/-! ### Concrete gradient sets used by the witnesses and counterexamples -/

/-- A two-element non-constant tensor under the name `"w"`. -/
def gPair : GradientSet ℚ := [("w", ⟨[2], [1, 2]⟩)]

/-- A seven-element tensor, exercising `k = int(7 * 0.5)`. -/
def gSeven : GradientSet ℚ := [("w", ⟨[7], [1, 2, 3, 4, 5, 6, 7]⟩)]

/-- The quantization scenario of the spec: `[-1.0, 0.0, 1.0, 2.0]`. -/
def gQuant : GradientSet ℚ := [("w", ⟨[4], [-1, 0, 1, 2]⟩)]

/-- A two-element non-constant tensor whose estimated quantized size
exceeds its dense size. -/
def gSmall : GradientSet ℚ := [("a", ⟨[2], [0, 1]⟩)]

/-- Six elements in one tensor: the least total making 8-bit quantization
pay off in the byte estimate. -/
def gSix : GradientSet ℚ := [("w", ⟨[6], [0, 1, 2, 3, 4, 5]⟩)]

/-- A three-element tensor with a zero and a negative entry. -/
def gMixed : GradientSet ℚ := [("w", ⟨[3], [5, 0, -2]⟩)]

/-- A tensor spanning `[0, 511]`: at 9 quantization bits its top level 511
does not fit one byte. -/
def gWide : GradientSet ℚ := [("w", ⟨[2], [0, 511]⟩)]

/-- A real-valued gradient set of norm 3 for the clipping witness. -/
def gNorm3 : GradientSet ℝ := [("w", ⟨[1], [3]⟩)]

/-! ### Helper lemmas: minima and maxima of element lists -/

theorem foldl_min_le_init (xs : List ℚ) (a : ℚ) : xs.foldl min a ≤ a := by
  induction xs generalizing a with
  | nil => simp
  | cons x xs ih => exact le_trans (ih (min a x)) (min_le_left a x)

theorem foldl_min_le_mem {xs : List ℚ} {x : ℚ} (hx : x ∈ xs) (a : ℚ) :
    xs.foldl min a ≤ x := by
  induction xs generalizing a with
  | nil => cases hx
  | cons y ys ih =>
      rcases List.mem_cons.mp hx with h | h
      · subst h
        exact le_trans (foldl_min_le_init ys (min a x)) (min_le_right a x)
      · exact ih h (min a y)

theorem init_le_foldl_max (xs : List ℚ) (a : ℚ) : a ≤ xs.foldl max a := by
  induction xs generalizing a with
  | nil => simp
  | cons x xs ih => exact le_trans (le_max_left a x) (ih (max a x))

theorem mem_le_foldl_max {xs : List ℚ} {x : ℚ} (hx : x ∈ xs) (a : ℚ) :
    x ≤ xs.foldl max a := by
  induction xs generalizing a with
  | nil => cases hx
  | cons y ys ih =>
      rcases List.mem_cons.mp hx with h | h
      · subst h
        exact le_trans (le_max_right a x) (init_le_foldl_max ys (max a x))
      · exact ih h (max a y)

theorem minList_le_mem {l : List ℚ} {x : ℚ} (hx : x ∈ l) : minList l ≤ x := by
  cases l with
  | nil => cases hx
  | cons y ys =>
      rcases List.mem_cons.mp hx with h | h
      · subst h
        simpa [minList] using foldl_min_le_init ys x
      · simpa [minList] using foldl_min_le_mem h y

theorem mem_le_maxList {l : List ℚ} {x : ℚ} (hx : x ∈ l) : x ≤ maxList l := by
  cases l with
  | nil => cases hx
  | cons y ys =>
      rcases List.mem_cons.mp hx with h | h
      · subst h
        simpa [maxList] using init_le_foldl_max ys x
      · simpa [maxList] using mem_le_foldl_max h y

theorem minList_le_maxList {l : List ℚ} (h : l ≠ []) : minList l ≤ maxList l := by
  cases l with
  | nil => exact absurd rfl h
  | cons y ys =>
      exact le_trans (minList_le_mem (List.mem_cons_self y ys))
        (mem_le_maxList (List.mem_cons_self y ys))

/-! ### Helper lemmas: round half to even -/

theorem rhe_sub_abs_le (q : ℚ) : |(rhe q : ℚ) - q| ≤ 1 / 2 := by
  unfold rhe
  have hfl : (⌊q⌋ : ℚ) ≤ q := Int.floor_le q
  have hfu : q - 1 < (⌊q⌋ : ℚ) := Int.sub_one_lt_floor q
  by_cases h1 : q - (⌊q⌋ : ℚ) < 1 / 2
  · rw [if_pos h1, abs_le]
    constructor <;> push_cast <;> linarith
  · rw [if_neg h1]
    by_cases h2 : (1 : ℚ) / 2 < q - (⌊q⌋ : ℚ)
    · rw [if_pos h2, abs_le]
      constructor <;> push_cast <;> linarith
    · rw [if_neg h2]
      have he : q - (⌊q⌋ : ℚ) = 1 / 2 := le_antisymm (not_lt.mp h2) (not_lt.mp h1)
      by_cases h3 : 2 ∣ ⌊q⌋
      · rw [if_pos h3, abs_le]
        constructor <;> push_cast <;> linarith
      · rw [if_neg h3, abs_le]
        constructor <;> push_cast <;> linarith

theorem rhe_nonneg {q : ℚ} (h : 0 ≤ q) : 0 ≤ rhe q := by
  unfold rhe
  have h0 : 0 ≤ ⌊q⌋ := Int.floor_nonneg.mpr h
  by_cases h1 : q - (⌊q⌋ : ℚ) < 1 / 2
  · rw [if_pos h1]; exact h0
  · rw [if_neg h1]
    by_cases h2 : (1 : ℚ) / 2 < q - (⌊q⌋ : ℚ)
    · rw [if_pos h2]; omega
    · rw [if_neg h2]
      by_cases h3 : 2 ∣ ⌊q⌋
      · rw [if_pos h3]; omega
      · rw [if_neg h3]; omega

theorem rhe_le_of_le {q : ℚ} {M : ℤ} (h : q ≤ (M : ℚ)) : rhe q ≤ M := by
  unfold rhe
  have hfl : ⌊q⌋ ≤ M := by
    have := Int.floor_le_floor h
    simpa using this
  by_cases h1 : q - (⌊q⌋ : ℚ) < 1 / 2
  · rw [if_pos h1]; exact hfl
  · rw [if_neg h1]
    have hlt : ⌊q⌋ < M := by
      rcases lt_or_eq_of_le hfl with h' | h'
      · exact h'
      · exfalso
        have : q - (⌊q⌋ : ℚ) ≥ 1 / 2 := not_lt.mp h1
        have hq : (⌊q⌋ : ℚ) ≤ q - 1 / 2 := by linarith
        rw [h'] at hq
        linarith
    by_cases h2 : (1 : ℚ) / 2 < q - (⌊q⌋ : ℚ)
    · rw [if_pos h2]; omega
    · rw [if_neg h2]
      by_cases h3 : 2 ∣ ⌊q⌋
      · rw [if_pos h3]; omega
      · rw [if_neg h3]; omega

theorem clampI_of_mem {z M : ℤ} (h0 : 0 ≤ z) (hM : z ≤ M) : clampI z 0 M = z := by
  unfold clampI
  omega

/-! ### Helper lemmas: signs -/

theorem abs_mul_sgn (x : ℚ) : |x| * sgn x = x := by
  unfold sgn
  rcases lt_trichotomy 0 x with h | h | h
  · rw [if_pos h, abs_of_pos h, mul_one]
  · simp [← h]
  · rw [if_neg (by linarith), if_pos h, abs_of_neg h]
    ring

/-! ### Helper lemmas: the sort behind `topk` -/

theorem length_insertPair (a : ℕ × ℚ) (l : List (ℕ × ℚ)) :
    (insertPair a l).length = l.length + 1 := by
  induction l with
  | nil => rfl
  | cons b bs ih =>
      unfold insertPair
      by_cases h : pairLe a b
      · simp [h]
      · simp [h, ih]

theorem length_sortPairs (l : List (ℕ × ℚ)) : (sortPairs l).length = l.length := by
  induction l with
  | nil => rfl
  | cons a as ih => simp [sortPairs, length_insertPair, ih]

theorem insertPair_perm (a : ℕ × ℚ) (l : List (ℕ × ℚ)) :
    (insertPair a l).Perm (a :: l) := by
  induction l with
  | nil => exact List.Perm.refl _
  | cons b bs ih =>
      unfold insertPair
      by_cases h : pairLe a b
      · simp [h]
      · rw [if_neg h]
        exact ((ih.cons b).trans (List.Perm.swap a b bs))

theorem sortPairs_perm (l : List (ℕ × ℚ)) : (sortPairs l).Perm l := by
  induction l with
  | nil => exact List.Perm.refl _
  | cons a as ih => exact (insertPair_perm a (sortPairs as)).trans (ih.cons a)

theorem length_topkPairs (flat : List ℚ) (k : ℕ) :
    (topkPairs flat k).length = min k (enumFromQ 0 flat).length := by
  simp [topkPairs, length_sortPairs]

/-! ### Helper lemmas: enumeration of a flattened tensor -/

theorem length_enumFromQ (i : ℕ) (l : List ℚ) : (enumFromQ i l).length = l.length := by
  induction l generalizing i with
  | nil => rfl
  | cons x xs ih => simp [enumFromQ, ih]

theorem enumFromQ_map_fst (i : ℕ) (l : List ℚ) :
    (enumFromQ i l).map Prod.fst = List.range' i l.length := by
  induction l generalizing i with
  | nil => rfl
  | cons x xs ih => simp [enumFromQ, List.range', ih]

theorem mem_enumFromQ {i : ℕ} {l : List ℚ} {p : ℕ × ℚ} (hp : p ∈ enumFromQ i l) :
    i ≤ p.1 ∧ p.1 - i < l.length ∧ l.getD (p.1 - i) 0 = p.2 := by
  induction l generalizing i with
  | nil => cases hp
  | cons x xs ih =>
      rcases List.mem_cons.mp hp with h | h
      · subst h
        simp
      · obtain ⟨h1, h2, h3⟩ := ih h
        refine ⟨by omega, by simpa using by omega, ?_⟩
        have hd : p.1 - i = (p.1 - (i + 1)) + 1 := by omega
        rw [hd]
        simpa using h3

theorem getD_mem_enumFromQ {l : List ℚ} {p : ℕ × ℚ} (hp : p ∈ enumFromQ 0 l) :
    l.getD p.1 0 = p.2 := by
  have := mem_enumFromQ hp
  simpa using this.2.2

theorem enumFromQ_mem_of_lt (l : List ℚ) (i j : ℕ) (hj : j < l.length) :
    (i + j, l.getD j 0) ∈ enumFromQ i l := by
  induction l generalizing i j with
  | nil => simp at hj
  | cons x xs ih =>
      cases j with
      | zero => simp [enumFromQ]
      | succ j' =>
          have hj' : j' < xs.length := by simpa using hj
          have := ih (i + 1) j' hj'
          have he : i + (j' + 1) = (i + 1) + j' := by omega
          rw [he]
          exact List.mem_cons_of_mem _ (by simpa using this)

/-! ### Helper lemmas: scatter -/

theorem length_scatter (ps : List (ℕ × ℚ)) (d : List ℚ) :
    (scatter d ps).length = d.length := by
  induction ps generalizing d with
  | nil => rfl
  | cons p rest ih =>
      obtain ⟨i, v⟩ := p
      simp [scatter, ih]

theorem scatter_getD_not_mem {j : ℕ} (ps : List (ℕ × ℚ)) (d : List ℚ)
    (hj : j ∉ ps.map Prod.fst) : (scatter d ps).getD j 0 = d.getD j 0 := by
  induction ps generalizing d with
  | nil => rfl
  | cons p rest ih =>
      obtain ⟨i, v⟩ := p
      have hji : j ≠ i := by
        intro h
        exact hj (by simp [h])
      have hrest : j ∉ rest.map Prod.fst := by
        intro h
        exact hj (by simp [h])
      rw [scatter, ih _ hrest]
      rcases lt_or_le j d.length with hlt | hge
      · rw [List.getD_eq_getElem _ _ (by simpa using hlt),
          List.getD_eq_getElem _ _ hlt]
        simp [List.getElem_set, hji.symm]
      · rw [List.getD_eq_default _ _ (by simpa using hge),
          List.getD_eq_default _ _ hge]

theorem scatter_getD_mem {j : ℕ} {v : ℚ} (ps : List (ℕ × ℚ)) (d : List ℚ)
    (hnd : (ps.map Prod.fst).Nodup) (hmem : (j, v) ∈ ps) (hj : j < d.length) :
    (scatter d ps).getD j 0 = v := by
  induction ps generalizing d with
  | nil => cases hmem
  | cons p rest ih =>
      obtain ⟨i, w⟩ := p
      rw [List.map_cons, List.nodup_cons] at hnd
      obtain ⟨hnd1, hnd2⟩ := hnd
      rcases List.mem_cons.mp hmem with h | h
      · obtain ⟨rfl, rfl⟩ := Prod.mk.inj h
        rw [scatter, scatter_getD_not_mem rest _ hnd1]
        rw [List.getD_eq_getElem _ _ (by simpa using hj)]
        simp [List.getElem_set, hj]
      · rw [scatter]
        exact ih _ hnd2 h (by simpa using hj)

theorem scatter_of_perm_enum (l : List ℚ) (ps : List (ℕ × ℚ)) (d : List ℚ)
    (hperm : ps.Perm (enumFromQ 0 l)) (hd : d.length = l.length) :
    scatter d ps = l := by
  have hlen : (scatter d ps).length = l.length := by rw [length_scatter, hd]
  have hnd : (ps.map Prod.fst).Nodup := by
    have h1 : (ps.map Prod.fst).Perm ((enumFromQ 0 l).map Prod.fst) := hperm.map _
    have h2 : ((enumFromQ 0 l).map Prod.fst).Nodup := by
      rw [enumFromQ_map_fst]
      exact List.nodup_range' 0 l.length
    exact (h1.nodup_iff).mpr h2
  apply List.ext_getElem hlen
  intro j hj1 hj2
  have hjl : j < l.length := hj2
  have hmem : (j, l.getD j 0) ∈ ps := by
    refine hperm.mem_iff.mpr ?_
    simpa using enumFromQ_mem_of_lt l 0 j hjl
  have := scatter_getD_mem ps d hnd hmem (by omega)
  rw [List.getD_eq_getElem _ _ hj1] at this
  rw [this, List.getD_eq_getElem _ _ hjl]

theorem zip_map_fst_snd (l : List (ℕ × ℚ)) :
    (l.map Prod.fst).zip (l.map Prod.snd) = l := by
  induction l with
  | nil => rfl
  | cons p rest ih => simp [ih]

/-! ### Helper lemmas: the sparsifier -/

/-- The bump `if k == 0: k = 1` is exactly `max 1 k`. -/
theorem if_zero_one_eq_max (k : ℕ) : (if k = 0 then 1 else k) = max 1 k := by
  cases k with
  | zero => simp
  | succ m =>
      rw [if_neg (Nat.succ_ne_zero m)]
      omega

/-- The `k` the code computes for one tensor. -/
def codeK (sparsity : ℚ) (n : ℕ) : ℕ :=
  let k0 := (⌊(n : ℚ) * (1 - sparsity)⌋).toNat
  if k0 = 0 then 1 else k0

theorem codeK_eq_max (sparsity : ℚ) (n : ℕ) :
    codeK sparsity n = max 1 (⌊(n : ℚ) * (1 - sparsity)⌋).toNat := by
  unfold codeK
  exact if_zero_one_eq_max _

theorem codeK_le_n {sparsity : ℚ} {n : ℕ} (hn : 1 ≤ n) (h0 : 0 ≤ sparsity)
    (_h1 : sparsity < 1) : codeK sparsity n ≤ n := by
  unfold codeK
  have hfl : ⌊(n : ℚ) * (1 - sparsity)⌋ ≤ (n : ℤ) := by
    have hle : (n : ℚ) * (1 - sparsity) ≤ (n : ℚ) :=
      mul_le_of_le_one_right (by positivity) (by linarith)
    calc ⌊(n : ℚ) * (1 - sparsity)⌋ ≤ ⌊(n : ℚ)⌋ := Int.floor_le_floor hle
    _ = (n : ℤ) := Int.floor_natCast n
  have htn : (⌊(n : ℚ) * (1 - sparsity)⌋).toNat ≤ n := by omega
  show (if (⌊(n : ℚ) * (1 - sparsity)⌋).toNat = 0 then 1
    else (⌊(n : ℚ) * (1 - sparsity)⌋).toNat) ≤ n
  split <;> omega

theorem sparsifyTensor_values_length (sparsity : ℚ) (t : Tensor ℚ) :
    (sparsifyTensor sparsity t).values.length =
      min (codeK sparsity t.data.length) t.data.length := by
  simp [sparsifyTensor, codeK, length_topkPairs, length_sortPairs, length_enumFromQ]

theorem sparsifyTensor_indices_length (sparsity : ℚ) (t : Tensor ℚ) :
    (sparsifyTensor sparsity t).indices.length =
      min (codeK sparsity t.data.length) t.data.length := by
  simp [sparsifyTensor, codeK, length_topkPairs, length_sortPairs, length_enumFromQ]

theorem sparsifyTensor_counts {sparsity : ℚ} (t : Tensor ℚ) (h0 : 0 ≤ sparsity)
    (h1 : sparsity < 1) (hne : t.data ≠ []) :
    (sparsifyTensor sparsity t).values.length = codeK sparsity t.data.length ∧
    (sparsifyTensor sparsity t).indices.length = codeK sparsity t.data.length := by
  have hn : 1 ≤ t.data.length := List.length_pos.mpr hne
  have hk := codeK_le_n hn h0 h1
  rw [sparsifyTensor_values_length, sparsifyTensor_indices_length,
    min_eq_left hk]
  exact ⟨rfl, rfl⟩

/-- Per-tensor round trip at sparsity `0`: `topk` selects all `n` pairs (a
permutation of the enumeration) and scattering them into a zero buffer of
`prod(shape)` elements rebuilds the flattened data exactly. -/
theorem densifyTensor_sparsifyTensor_zero (t : Tensor ℚ)
    (hwf : t.data.length = t.shape.prod) (hne : t.data ≠ []) :
    densifyTensor (sparsifyTensor 0 t) = t := by
  obtain ⟨shape, data⟩ := t
  simp only at hwf hne
  have hn : 1 ≤ data.length := List.length_pos.mpr hne
  have hk0 : (⌊(data.length : ℚ) * (1 - 0)⌋).toNat = data.length := by
    simp
  have hpairs : topkPairs data (if (⌊(data.length : ℚ) * (1 - 0)⌋).toNat = 0 then 1
      else (⌊(data.length : ℚ) * (1 - 0)⌋).toNat) = sortPairs (enumFromQ 0 data) := by
    rw [hk0, if_neg (by omega)]
    apply List.take_of_length_le
    rw [length_sortPairs, length_enumFromQ]
  have hperm : (sortPairs (enumFromQ 0 data)).Perm (enumFromQ 0 data) :=
    sortPairs_perm _
  unfold densifyTensor sparsifyTensor
  simp only [hpairs]
  have hvals : (sortPairs (enumFromQ 0 data)).map
      (fun p => |p.2| * sgn (data.getD p.1 0)) =
      (sortPairs (enumFromQ 0 data)).map Prod.snd := by
    apply List.map_congr_left
    intro p hp
    rw [getD_mem_enumFromQ (hperm.mem_iff.mp hp), abs_mul_sgn]
  rw [hvals, zip_map_fst_snd]
  have hscatter : scatter (List.replicate shape.prod 0)
      (sortPairs (enumFromQ 0 data)) = data := by
    apply scatter_of_perm_enum data _ _ hperm
    rw [List.length_replicate, hwf]
  rw [hscatter]

/-! ### Claim C2 (corrected) -/

/-- Claim C2, as stated, is false: the code computes
`k = int(n * (1 - sparsity))` — truncation, not rounding.  At `n = 7`,
`sparsity = 0.5` the claim's `k = max(1, round(3.5)) = 4`, but the code
retains `int(3.5) = 3` pairs. -/
theorem sparsify_round_count_counterexample :
    (sparsify_gradients gSeven (1/2)).map (fun q => q.2.values.length) = [3] ∧
    max 1 (round ((7 : ℚ) * (1 - 1/2))).toNat = 4 := by
  constructor
  · show [(sparsifyTensor (1/2) ⟨[7], [1, 2, 3, 4, 5, 6, 7]⟩).values.length] = [3]
    rw [sparsifyTensor_values_length, codeK_eq_max]
    norm_num
    rfl
  · rw [round_eq, show ((7 : ℚ) * (1 - 1/2) + 1/2) = 4 by norm_num,
      show ⌊(4 : ℚ)⌋ = 4 by norm_num]
    rfl

/-- Claim C2, amended: for every tensor with `n` elements and every
sparsity in `[0,1)`, `sparsify` retains exactly
`k = max(1, floor(n × (1 − sparsity)))` value/index pairs — the floor
(Python `int()` truncation), not the rounding the claim states. -/
theorem sparsify_retains_floor_k (g : GradientSet ℚ) (sparsity : ℚ)
    (h0 : 0 ≤ sparsity) (h1 : sparsity < 1) (hne : ∀ p ∈ g, p.2.data ≠ []) :
    List.Forall₂ (fun (p : String × Tensor ℚ) (q : String × SparseTensor) =>
      q.1 = p.1 ∧
      q.2.values.length = max 1 (⌊(p.2.data.length : ℚ) * (1 - sparsity)⌋).toNat ∧
      q.2.indices.length = max 1 (⌊(p.2.data.length : ℚ) * (1 - sparsity)⌋).toNat)
    g (sparsify_gradients g sparsity) := by
  induction g with
  | nil => exact List.Forall₂.nil
  | cons p rest ih =>
      refine List.Forall₂.cons ?_ (ih (fun q hq => hne q (List.mem_cons_of_mem p hq)))
      obtain ⟨hv, hi⟩ := sparsifyTensor_counts p.2 h0 h1 (hne p (List.mem_cons_self p rest))
      rw [codeK_eq_max] at hv hi
      exact ⟨rfl, hv, hi⟩

/-- Witness for C2's amended theorem at `gSeven`, `sparsity = 1/2`. -/
theorem sparsify_retains_floor_k_witness :
    List.Forall₂ (fun (p : String × Tensor ℚ) (q : String × SparseTensor) =>
      q.1 = p.1 ∧
      q.2.values.length = max 1 (⌊(p.2.data.length : ℚ) * (1 - (1/2))⌋).toNat ∧
      q.2.indices.length = max 1 (⌊(p.2.data.length : ℚ) * (1 - (1/2))⌋).toNat)
    gSeven (sparsify_gradients gSeven (1/2)) :=
  sparsify_retains_floor_k gSeven (1/2) (by norm_num) (by norm_num) (by decide)

/-! ### Claim C9 (confirmed) -/

/-- Claim C9: at sparsity `0` the sparsify/densify round trip is the
identity — `k = int(n * 1) = n`, every element is kept, and scattering the
`n` pairs into the zero buffer rebuilds each tensor exactly.  The
hypothesis states that each tensor is well-formed (flattened length =
product of its shape, as every real torch tensor satisfies) and
non-empty. -/
theorem densify_sparsify_at_zero (g : GradientSet ℚ)
    (hwf : ∀ p ∈ g, p.2.data.length = p.2.shape.prod ∧ p.2.data ≠ []) :
    densify_gradients (sparsify_gradients g 0) = g := by
  unfold densify_gradients sparsify_gradients
  rw [List.map_map]
  conv_rhs => rw [show g = g.map id from (List.map_id g).symm]
  apply List.map_congr_left
  intro p hp
  obtain ⟨h1, h2⟩ := hwf p hp
  show (p.1, densifyTensor (sparsifyTensor 0 p.2)) = p
  rw [densifyTensor_sparsifyTensor_zero p.2 h1 h2]

/-- Witness for C9 at the concrete set `gMixed`. -/
theorem densify_sparsify_at_zero_witness :
    densify_gradients (sparsify_gradients gMixed 0) = gMixed :=
  densify_sparsify_at_zero gMixed (by decide)

/-! ### Helper lemmas: the quantizer -/

theorem mem_zip_self {l : List ℚ} {pr : ℚ × ℚ} (h : pr ∈ l.zip l) : pr.1 = pr.2 := by
  induction l with
  | nil => cases h
  | cons a as ih =>
      rcases List.mem_cons.mp h with h' | h'
      · rw [h']
      · exact ih h'

theorem mem_zip_map {f : ℚ → ℚ} {l : List ℚ} {pr : ℚ × ℚ}
    (h : pr ∈ (l.map f).zip l) : pr.1 = f pr.2 ∧ pr.2 ∈ l := by
  induction l with
  | nil => cases h
  | cons x xs ih =>
      rcases List.mem_cons.mp h with h' | h'
      · obtain ⟨h1, h2⟩ := Prod.mk.inj (h' : pr = (f x, x))
        exact ⟨h2 ▸ h1, by simp [h2]⟩
      · obtain ⟨h1, h2⟩ := ih h'
        exact ⟨h1, List.mem_cons_of_mem x h2⟩

theorem two_pow_sub_one_pos {b : ℕ} (hb1 : 1 ≤ b) : (0 : ℚ) < 2 ^ b - 1 := by
  have : (2 : ℚ) ^ 1 ≤ 2 ^ b := pow_le_pow_right (by norm_num) hb1
  norm_num at this
  linarith

theorem scaleOf_nonneg {b : ℕ} (hb1 : 1 ≤ b) {t : Tensor ℚ} (hne : t.data ≠ []) :
    0 ≤ scaleOf b t := by
  unfold scaleOf
  have h1 : minList t.data ≤ maxList t.data := minList_le_maxList hne
  have h2 := two_pow_sub_one_pos hb1
  exact div_nonneg (by linarith) (le_of_lt h2)

/-- The reconstruction error of one element when the scale is positive:
the stored byte is exactly the clamped rounded level (it fits one byte for
`bits ≤ 8`), and dequantizing it lands within half a quantization step of
the original. -/
theorem quant_elem_bound {b : ℕ} (hb1 : 1 ≤ b) (hb8 : b ≤ 8) {t : Tensor ℚ}
    {x : ℚ} (hx : x ∈ t.data) (hs : 0 < scaleOf b t) :
    |((((quantLevel b (minList t.data) (scaleOf b t) x).toNat % 2 ^ 8 : ℕ) : ℚ) *
        scaleOf b t + minList t.data) - x| ≤ scaleOf b t / 2 := by
  set lo := minList t.data with hlo
  set hi := maxList t.data with hhi
  set scale := scaleOf b t with hscale
  have hMq : (0 : ℚ) < 2 ^ b - 1 := two_pow_sub_one_pos hb1
  have hxlo : lo ≤ x := minList_le_mem hx
  have hxhi : x ≤ hi := mem_le_maxList hx
  set y := (x - lo) / scale with hy
  have hy0 : 0 ≤ y := div_nonneg (by linarith) (le_of_lt hs)
  have hspan : hi - lo = scale * (2 ^ b - 1) := by
    rw [hscale]
    unfold scaleOf
    rw [← hlo, ← hhi]
    field_simp
  have hyM : y ≤ ((((2 : ℤ) ^ b - 1) : ℤ) : ℚ) := by
    have hxb : x - lo ≤ scale * (2 ^ b - 1) := by linarith
    rw [hy, div_le_iff hs]
    push_cast
    linarith [hxb]
  set z := rhe y with hz
  have hz0 : 0 ≤ z := rhe_nonneg hy0
  have hzM : z ≤ (2 : ℤ) ^ b - 1 := rhe_le_of_le hyM
  have hclamp : quantLevel b lo scale x = z := by
    unfold quantLevel
    rw [← hy, ← hz]
    exact clampI_of_mem hz0 hzM
  have hz255 : z.toNat < 2 ^ 8 := by
    have : (2 : ℤ) ^ b ≤ 2 ^ 8 := pow_le_pow_right (by norm_num) hb8
    omega
  rw [hclamp, Nat.mod_eq_of_lt hz255]
  have hcast : ((z.toNat : ℕ) : ℚ) = (z : ℚ) := by
    have := Int.toNat_of_nonneg hz0
    exact_mod_cast congrArg (fun w : ℤ => (w : ℚ)) this
  rw [hcast]
  have hrnd : |(z : ℚ) - y| ≤ 1 / 2 := rhe_sub_abs_le y
  have hrew : (z : ℚ) * scale + lo - x = scale * ((z : ℚ) - y) := by
    have : y * scale = x - lo := div_mul_cancel₀ _ (ne_of_gt hs)
    rw [mul_sub]
    linarith [this]
  rw [hrew, abs_mul, abs_of_pos hs]
  calc scale * |(z : ℚ) - y| ≤ scale * (1 / 2) := by
        exact mul_le_mul_of_nonneg_left hrnd (le_of_lt hs)
  _ = scale / 2 := by ring

/-- The per-tensor properties of the quantize/dequantize round trip. -/
theorem dequantizeTensor_quantizeTensor {b : ℕ} (hb1 : 1 ≤ b) (hb8 : b ≤ 8)
    (t : Tensor ℚ) (hne : t.data ≠ []) :
    (dequantizeTensor (quantizeTensor b t).1 (quantizeTensor b t).2).shape = t.shape ∧
    (dequantizeTensor (quantizeTensor b t).1 (quantizeTensor b t).2).data.length =
      t.data.length ∧
    (∀ pr ∈ (dequantizeTensor (quantizeTensor b t).1 (quantizeTensor b t).2).data.zip
        t.data, |pr.1 - pr.2| ≤ scaleOf b t / 2) ∧
    (scaleOf b t = 0 →
      (dequantizeTensor (quantizeTensor b t).1 (quantizeTensor b t).2).data = t.data) := by
  by_cases hs : 0 < scaleOf b t
  · have hqt : quantizeTensor b t =
        (⟨t.shape, t.data.map
          (fun x => (quantLevel b (minList t.data) (scaleOf b t) x).toNat % 2 ^ 8)⟩,
         ⟨scaleOf b t, minList t.data⟩) := by
      unfold quantizeTensor
      rw [if_pos hs]
    have hdq : dequantizeTensor (quantizeTensor b t).1 (quantizeTensor b t).2 =
        ⟨t.shape, t.data.map (fun x =>
          (((quantLevel b (minList t.data) (scaleOf b t) x).toNat % 2 ^ 8 : ℕ) : ℚ) *
            scaleOf b t + minList t.data)⟩ := by
      rw [hqt]
      unfold dequantizeTensor
      rw [List.map_map]
      rfl
    rw [hdq]
    refine ⟨rfl, by rw [List.length_map], ?_, fun h0 => absurd h0 (ne_of_gt hs)⟩
    intro pr hpr
    obtain ⟨h1, h2⟩ := mem_zip_map hpr
    rw [h1]
    exact quant_elem_bound hb1 hb8 h2 hs
  · have hs0 : scaleOf b t = 0 :=
      le_antisymm (not_lt.mp hs) (scaleOf_nonneg hb1 hne)
    have hqt : quantizeTensor b t =
        (⟨t.shape, t.data.map (fun _ => 0)⟩, ⟨0, minList t.data⟩) := by
      unfold quantizeTensor
      rw [if_neg hs]
    have hconst : ∀ x ∈ t.data, x = minList t.data := by
      intro x hx
      have h1 : minList t.data ≤ x := minList_le_mem hx
      have h2 : x ≤ maxList t.data := mem_le_maxList hx
      have h3 : maxList t.data ≤ minList t.data := by
        unfold scaleOf at hs0
        have hMq := two_pow_sub_one_pos hb1
        have := div_eq_zero_iff.mp hs0
        rcases this with h | h
        · linarith
        · linarith
      linarith
    have hdata : (dequantizeTensor (quantizeTensor b t).1 (quantizeTensor b t).2).data
        = t.data := by
      rw [hqt]
      unfold dequantizeTensor
      simp only [List.map_map]
      calc t.data.map ((fun v : ℕ => (v : ℚ) * 0 + minList t.data) ∘ fun _ => 0)
          = t.data.map id := by
            apply List.map_congr_left
            intro x hx
            show ((0 : ℕ) : ℚ) * 0 + minList t.data = id x
            rw [(hconst x hx : x = minList t.data)]
            simp
      _ = t.data := List.map_id t.data
    refine ⟨by rw [hqt]; rfl, by rw [hdata], ?_, fun _ => hdata⟩
    intro pr hpr
    rw [hdata] at hpr
    rw [hs0, mem_zip_self hpr]
    simp

theorem lookupD_cons_self {α : Type} (k : String) (v : α) (l : List (String × α))
    (d : α) : lookupD ((k, v) :: l) k d = v := by
  unfold lookupD
  rw [List.find?_cons_of_pos _ (by simp)]

theorem lookupD_cons_ne {α : Type} {k0 k : String} (h : k0 ≠ k) (v : α)
    (l : List (String × α)) (d : α) : lookupD ((k0, v) :: l) k d = lookupD l k d := by
  unfold lookupD
  rw [List.find?_cons_of_neg _ (by simp [h])]

/-- With pairwise-distinct parameter names (a Python `dict` invariant),
`dequantize_gradients` pairs every quantized tensor with its own
parameters. -/
theorem dequantize_quantize_eq_map (b : ℕ) (g : GradientSet ℚ)
    (hnd : (g.map Prod.fst).Nodup) :
    dequantize_gradients (quantize_gradients g b) =
      g.map (fun p =>
        (p.1, dequantizeTensor (quantizeTensor b p.2).1 (quantizeTensor b p.2).2)) := by
  induction g with
  | nil => rfl
  | cons p rest ih =>
      rw [List.map_cons, List.nodup_cons] at hnd
      obtain ⟨hp, hrest⟩ := hnd
      show List.map _ ((p.1, (quantizeTensor b p.2).1) ::
        rest.map (fun r => (r.1, (quantizeTensor b r.2).1))) = _
      rw [List.map_cons, List.map_cons]
      congr 1
      case _ =>
        show (p.1, dequantizeTensor (quantizeTensor b p.2).1
          (lookupD ((p.1, (quantizeTensor b p.2).2) ::
            rest.map (fun r => (r.1, (quantizeTensor b r.2).2))) p.1 ⟨0, 0⟩)) = _
        rw [lookupD_cons_self]
      case _ =>
        rw [List.map_map]
        have hparams : (quantize_gradients (p :: rest) b).params =
            (p.1, (quantizeTensor b p.2).2) ::
              rest.map (fun r' => (r'.1, (quantizeTensor b r'.2).2)) := rfl
        rw [hparams]
        have hstep : ∀ r ∈ rest,
            ((fun pr => (pr.1, dequantizeTensor pr.2
                (lookupD ((p.1, (quantizeTensor b p.2).2) ::
                  rest.map (fun r' => (r'.1, (quantizeTensor b r'.2).2))) pr.1 ⟨0, 0⟩))) ∘
              fun r' => (r'.1, (quantizeTensor b r'.2).1)) r =
            (fun pr => (pr.1, dequantizeTensor pr.2
                (lookupD (rest.map (fun r' => (r'.1, (quantizeTensor b r'.2).2))) pr.1 ⟨0, 0⟩)))
              ((fun r' => (r'.1, (quantizeTensor b r'.2).1)) r) := by
          intro r hr
          have hne : p.1 ≠ r.1 := by
            intro he
            exact hp (he ▸ List.mem_map_of_mem Prod.fst hr)
          show (r.1, dequantizeTensor (quantizeTensor b r.2).1 (lookupD _ r.1 ⟨0, 0⟩)) = _
          rw [lookupD_cons_ne hne]
        rw [List.map_congr_left hstep]
        show rest.map ((fun pr => (pr.1, dequantizeTensor pr.2
            (lookupD (rest.map (fun r' => (r'.1, (quantizeTensor b r'.2).2))) pr.1 ⟨0, 0⟩))) ∘
          fun r' => (r'.1, (quantizeTensor b r'.2).1)) = _
        rw [← List.map_map]
        exact ih hrest

/-! ### Claim C3 (confirmed) -/

/-- Claim C3: for `1 ≤ bits ≤ 8`, `dequantize(quantize(g, bits))` keeps
every parameter name and tensor shape of `g`, every reconstructed element
is within `scale(tensor)/2` of the original (which implies the claim's
`scale/2 + ε` for any `ε ≥ 0`), and the `scale == 0` (constant-tensor)
case reconstructs exactly.  The hypotheses record that names in a Python
`dict` are unique and that torch forbids `min()`/`max()` on empty
tensors. -/
theorem dequantize_quantize_roundtrip (g : GradientSet ℚ) (b : ℕ)
    (hb1 : 1 ≤ b) (hb8 : b ≤ 8) (hnd : (g.map Prod.fst).Nodup)
    (hne : ∀ p ∈ g, p.2.data ≠ []) :
    (dequantize_gradients (quantize_gradients g b)).map Prod.fst = g.map Prod.fst ∧
    List.Forall₂ (fun (p q : String × Tensor ℚ) =>
      q.1 = p.1 ∧ q.2.shape = p.2.shape ∧ q.2.data.length = p.2.data.length ∧
      (∀ pr ∈ q.2.data.zip p.2.data, |pr.1 - pr.2| ≤ scaleOf b p.2 / 2) ∧
      (scaleOf b p.2 = 0 → q.2.data = p.2.data))
    g (dequantize_gradients (quantize_gradients g b)) := by
  rw [dequantize_quantize_eq_map b g hnd]
  constructor
  · rw [List.map_map]
    rfl
  · clear hnd
    induction g with
    | nil => exact List.Forall₂.nil
    | cons p rest ih =>
        rw [List.map_cons]
        refine List.Forall₂.cons ?_ (ih (fun q hq => hne q (List.mem_cons_of_mem p hq)))
        obtain ⟨h1, h2, h3, h4⟩ :=
          dequantizeTensor_quantizeTensor hb1 hb8 p.2 (hne p (List.mem_cons_self p rest))
        exact ⟨rfl, h1, h2, h3, h4⟩

/-- Witness for C3 at the spec's own scenario `[-1, 0, 1, 2]`, 8 bits. -/
theorem dequantize_quantize_roundtrip_witness :
    (dequantize_gradients (quantize_gradients gQuant 8)).map Prod.fst =
      gQuant.map Prod.fst ∧
    List.Forall₂ (fun (p q : String × Tensor ℚ) =>
      q.1 = p.1 ∧ q.2.shape = p.2.shape ∧ q.2.data.length = p.2.data.length ∧
      (∀ pr ∈ q.2.data.zip p.2.data, |pr.1 - pr.2| ≤ scaleOf 8 p.2 / 2) ∧
      (scaleOf 8 p.2 = 0 → q.2.data = p.2.data))
    gQuant (dequantize_gradients (quantize_gradients gQuant 8)) :=
  dequantize_quantize_roundtrip gQuant 8 (by decide) (by decide) (by decide) (by decide)

/-! ### Claim C10 (confirmed) -/

/-- The quantization level the claim describes — rounded and clamped to
`[0, 2^bits − 1]` but *not* reduced to one byte.  Stated from the claim's
words, to be compared with what `quantize_gradients` actually stores. -/
def idealQuantTensor (num_bits : ℕ) (t : Tensor ℚ) : List ℤ :=
  if 0 < scaleOf num_bits t then
    t.data.map (fun x => quantLevel num_bits (minList t.data) (scaleOf num_bits t) x)
  else t.data.map (fun _ => 0)

theorem minList_gWide : minList [(0 : ℚ), 511] = 0 := by
  norm_num [minList, min_def]

theorem maxList_gWide : maxList [(0 : ℚ), 511] = 511 := by
  norm_num [maxList, max_def]

theorem scaleOf_gWide : scaleOf 9 (⟨[2], [0, 511]⟩ : Tensor ℚ) = 1 := by
  unfold scaleOf
  show (maxList [(0 : ℚ), 511] - minList [(0 : ℚ), 511]) / (2 ^ 9 - 1) = 1
  rw [minList_gWide, maxList_gWide]
  norm_num

theorem quantLevel_zero : quantLevel 9 0 1 0 = 0 := by
  unfold quantLevel rhe clampI
  norm_num

theorem quantLevel_top : quantLevel 9 0 1 511 = 511 := by
  unfold quantLevel rhe clampI
  norm_num

theorem ideal_gWide : idealQuantTensor 9 (⟨[2], [0, 511]⟩ : Tensor ℚ) = [0, 511] := by
  unfold idealQuantTensor
  rw [scaleOf_gWide, if_pos (by norm_num : (0 : ℚ) < 1)]
  show [quantLevel 9 (minList [(0 : ℚ), 511]) 1 0,
    quantLevel 9 (minList [(0 : ℚ), 511]) 1 511] = [0, 511]
  rw [minList_gWide, quantLevel_zero, quantLevel_top]

theorem quantizeTensor_data_eq_ideal_mod (b : ℕ) (t : Tensor ℚ) :
    (quantizeTensor b t).1.data = (idealQuantTensor b t).map (fun z => z.toNat % 2 ^ 8) := by
  unfold quantizeTensor idealQuantTensor
  by_cases hs : 0 < scaleOf b t
  · rw [if_pos hs, if_pos hs, List.map_map]
    rfl
  · rw [if_neg hs, if_neg hs, List.map_map]
    rfl

/-- Claim C10: for `bits > 8` every stored element is the rounded, clamped
level reduced modulo `2^8` (the `.to(torch.uint8)` cast), and at
`bits = 9` on the tensor `[0, 511]` the stored byte `255` differs from the
clamped level `511`. -/
theorem quantize_stores_level_mod_byte (b : ℕ) (hb : 8 < b) (g : GradientSet ℚ) :
    List.Forall₂ (fun (p : String × Tensor ℚ) (q : String × QTensor) =>
      q.1 = p.1 ∧ q.2.data = (idealQuantTensor b p.2).map (fun z => z.toNat % 2 ^ 8))
    g (quantize_gradients g b).gradients ∧
    ((quantize_gradients gWide 9).gradients.map (fun q => q.2.data) = [[0, 255]] ∧
      (idealQuantTensor 9 ⟨[2], [0, 511]⟩).map Int.toNat ≠ [0, 255]) := by
  refine ⟨?_, ?_, ?_⟩
  · induction g with
    | nil => exact List.Forall₂.nil
    | cons p rest ih =>
        exact List.Forall₂.cons ⟨rfl, quantizeTensor_data_eq_ideal_mod b p.2⟩ ih
  · show [(quantizeTensor 9 ⟨[2], [0, 511]⟩).1.data] = [[0, 255]]
    rw [quantizeTensor_data_eq_ideal_mod, ideal_gWide]
    rfl
  · rw [ideal_gWide]
    intro h
    have h2 := List.head_eq_of_cons_eq (List.tail_eq_of_cons_eq h)
    exact absurd h2 (by decide)

/-- Witness for C10 at `bits = 9` on `gWide`. -/
theorem quantize_stores_level_mod_byte_witness :
    List.Forall₂ (fun (p : String × Tensor ℚ) (q : String × QTensor) =>
      q.1 = p.1 ∧ q.2.data = (idealQuantTensor 9 p.2).map (fun z => z.toNat % 2 ^ 8))
    gWide (quantize_gradients gWide 9).gradients ∧
    ((quantize_gradients gWide 9).gradients.map (fun q => q.2.data) = [[0, 255]] ∧
      (idealQuantTensor 9 ⟨[2], [0, 511]⟩).map Int.toNat ≠ [0, 255]) :=
  quantize_stores_level_mod_byte 9 (by decide) gWide

/-! ### Claim C1 (code bug) -/

/-- Claim C1 fails on the code.  Only the `'none'` envelope carries a
method tag; the sparse envelope carries none, so
`decompress(compress(g, 'sparsify'))` falls back to the default
`'quantize'` and dies with `KeyError('gradients')` instead of returning
the densified set; the quantized envelope also carries no tag and is
decoded only thanks to the same default.  Evaluated at the failing input
`{"w": [1.0, 2.0]}`. -/
theorem compress_sparsify_decompress_fails :
    Except.bind (compress_gradients gPair "sparsify" 8 (9/10)) decompress_gradients =
      Except.error Err.keyError ∧
    Except.bind (compress_gradients gPair "quantize" 8 (9/10)) decompress_gradients =
      Except.ok (dequantize_gradients (quantize_gradients gPair 8)) ∧
    Except.bind (compress_gradients gPair "none" 8 (9/10)) decompress_gradients =
      Except.ok gPair := by
  refine ⟨?_, rfl, rfl⟩
  show decompress_gradients (Envelope.senv (sparsify_gradients gPair (9/10))) =
    Except.error Err.keyError
  decide

/-! ### Claim C4 (corrected) -/

/-- Claim C4, as stated, is false: `aggregate_gradients([])` hits the
`if not gradient_list: return {}` branch and returns the empty mapping —
it does not fail at all. -/
theorem aggregate_empty_counterexample :
    aggregate_gradients ([] : List (GradientSet ℚ)) ≠ Except.error Err.emptyInput := by
  intro h
  exact Except.noConfusion h

/-- Claim C4, amended: `aggregate` applied to an empty sequence returns
the empty GradientSet (the spec itself records this as the reference's
behavior). -/
theorem aggregate_empty_returns_empty :
    aggregate_gradients ([] : List (GradientSet ℚ)) = Except.ok [] := rfl

/-! ### Claim C5 (corrected) -/

/-- Claim C5, as stated, is false: aggregating two singleton sets whose
parameter names differ raises a plain `KeyError` from
`aggregated[name] += grad` — an unrelated lookup fault, not the typed
`ShapeMismatchError` the claim requires. -/
theorem aggregate_mismatch_counterexample :
    aggregate_gradients [[("p", (⟨[1], [1]⟩ : Tensor ℚ))], [("q", ⟨[1], [1]⟩)]] =
      Except.error Err.keyError ∧ Err.keyError ≠ Err.shapeMismatch := by
  exact ⟨by decide, by decide⟩

theorem lookupE_error_eq {α : Type} {l : List (String × α)} {k : String} {e : Err}
    (h : lookupE l k = Except.error e) : e = Err.keyError := by
  unfold lookupE at h
  cases hf : List.find? (fun p => p.1 == k) l with
  | some p => rw [hf] at h; exact absurd h (by simp)
  | none =>
      rw [hf] at h
      injection h with h'
      exact h'.symm

theorem addInPlace_error_eq {a b : Tensor ℚ} {e : Err}
    (h : addInPlace a b = Except.error e) : e = Err.runtimeError := by
  unfold addInPlace at h
  by_cases h1 : a.shape = b.shape
  · rw [if_pos h1] at h
    exact absurd h (by simp)
  · rw [if_neg h1] at h
    by_cases h2 : broadcastableTo b.shape a.shape = true
    · rw [if_pos h2] at h
      exact absurd h (by simp)
    · rw [if_neg h2] at h
      injection h with h'
      exact h'.symm

theorem addOne_error_ne_sm (acc : GradientSet ℚ) (p : String × Tensor ℚ) {e : Err}
    (h : addOne acc p = Except.error e) : e ≠ Err.shapeMismatch := by
  unfold addOne at h
  cases hl : lookupE acc p.1 with
  | error e1 =>
      rw [hl] at h
      simp only [Bind.bind, Except.bind] at h
      injection h with h'
      rw [← h', lookupE_error_eq hl]
      exact by decide
  | ok t =>
      rw [hl] at h
      simp only [Bind.bind, Except.bind] at h
      cases ha : addInPlace t p.2 with
      | error e2 =>
          rw [ha] at h
          injection h with h'
          rw [← h', addInPlace_error_eq ha]
          exact by decide
      | ok t2 =>
          rw [ha] at h
          exact absurd h (by simp [Pure.pure, Except.pure])

theorem foldlM_error_ne_sm {α β : Type} (f : β → α → Except Err β)
    (hf : ∀ acc x e, f acc x = Except.error e → e ≠ Err.shapeMismatch) :
    ∀ (l : List α) (acc : β) (e : Err),
      List.foldlM f acc l = Except.error e → e ≠ Err.shapeMismatch := by
  intro l
  induction l with
  | nil =>
      intro acc e h
      rw [List.foldlM_nil] at h
      exact absurd h (by simp [Pure.pure, Except.pure])
  | cons x xs ih =>
      intro acc e h
      rw [List.foldlM_cons] at h
      cases hx : f acc x with
      | error e1 =>
          rw [hx] at h
          simp only [Bind.bind, Except.bind] at h
          injection h with h'
          exact h' ▸ hf acc x e1 hx
      | ok a =>
          rw [hx] at h
          simp only [Bind.bind, Except.bind] at h
          exact ih a e h

theorem addSet_error_ne_sm (acc g : GradientSet ℚ) {e : Err}
    (h : addSet acc g = Except.error e) : e ≠ Err.shapeMismatch :=
  foldlM_error_ne_sm addOne (fun a x e1 h1 => addOne_error_ne_sm a x h1) g acc e h

theorem updateAssoc_keys {α : Type} (l : List (String × α)) (k : String) (v : α) :
    (updateAssoc l k v).map Prod.fst = l.map Prod.fst := by
  unfold updateAssoc
  rw [List.map_map]
  apply List.map_congr_left
  intro p _
  show (if p.1 == k then (k, v) else p).1 = p.1
  by_cases h : (p.1 == k) = true
  · rw [if_pos h]
    exact (eq_of_beq h).symm
  · rw [if_neg h]

theorem find?_updateAssoc_ne {α : Type} {l : List (String × α)} {k k' : String}
    (h : k' ≠ k) (v : α) :
    List.find? (fun q => q.1 == k') (updateAssoc l k v) =
      List.find? (fun q => q.1 == k') l := by
  induction l with
  | nil => rfl
  | cons e rest ih =>
      show List.find? _ ((if e.1 == k then (k, v) else e) :: updateAssoc rest k v) = _
      by_cases he : (e.1 == k) = true
      · rw [if_pos he]
        have h1 : ((k, v).1 == k') = false := beq_eq_false_iff_ne.mpr (Ne.symm h)
        have h2 : (e.1 == k') = false :=
          beq_eq_false_iff_ne.mpr (by rw [eq_of_beq he]; exact Ne.symm h)
        rw [List.find?_cons_of_neg _ (by simp [h1]), List.find?_cons_of_neg _ (by simp [h2])]
        exact ih
      · rw [if_neg he]
        by_cases hk : (e.1 == k') = true
        · have e1 : List.find? (fun q : String × α => q.1 == k')
              (e :: updateAssoc rest k v) = some e := by
            apply List.find?_cons_of_pos
            exact hk
          have e2 : List.find? (fun q : String × α => q.1 == k') (e :: rest) = some e := by
            apply List.find?_cons_of_pos
            exact hk
          rw [e1, e2]
        · rw [List.find?_cons_of_neg _ (by simp [hk]), List.find?_cons_of_neg _ (by simp [hk])]
          exact ih

theorem find?_map_self (g0 : GradientSet ℚ) (f : String × Tensor ℚ → Tensor ℚ) :
    ∀ p ∈ g0, (g0.map Prod.fst).Nodup →
      List.find? (fun q => q.1 == p.1) (g0.map (fun r => (r.1, f r))) = some (p.1, f p) := by
  induction g0 with
  | nil => intro p hp; cases hp
  | cons r rest ih =>
      intro p hp hnd
      rw [List.map_cons, List.nodup_cons] at hnd
      obtain ⟨hr, hnd'⟩ := hnd
      rcases List.mem_cons.mp hp with h | h
      · subst h
        rw [List.map_cons, List.find?_cons_of_pos _ (by simp)]
      · have hne : (r.1 == p.1) = false := beq_eq_false_iff_ne.mpr (by
          intro he
          exact hr (he ▸ List.mem_map_of_mem Prod.fst h))
        rw [List.map_cons, List.find?_cons_of_neg _ (by simp [hne])]
        exact ih p h hnd'

/-- Folding one well-keyed gradient dictionary into an accumulator that
holds a same-shaped tensor under every needed name succeeds and preserves
the accumulator's keys. -/
theorem addSet_ok_of_shapes :
    ∀ (g : GradientSet ℚ) (acc : GradientSet ℚ), (g.map Prod.fst).Nodup →
      (∀ p ∈ g, ∃ ent : String × Tensor ℚ,
        List.find? (fun q => q.1 == p.1) acc = some ent ∧ ent.2.shape = p.2.shape) →
      ∃ acc', addSet acc g = Except.ok acc' ∧ acc'.map Prod.fst = acc.map Prod.fst := by
  intro g
  induction g with
  | nil => intro acc _ _; exact ⟨acc, rfl, rfl⟩
  | cons p rest ih =>
      intro acc hnd hinv
      rw [List.map_cons, List.nodup_cons] at hnd
      obtain ⟨hp1, hnd'⟩ := hnd
      obtain ⟨ent, hent, hshape⟩ := hinv p (List.mem_cons_self p rest)
      have hlook : lookupE acc p.1 = Except.ok ent.2 := by
        unfold lookupE
        rw [hent]
      have hadd : addInPlace ent.2 p.2 =
          Except.ok ⟨ent.2.shape, (ent.2.data.zip p.2.data).map (fun pr => pr.1 + pr.2)⟩ := by
        unfold addInPlace
        rw [if_pos hshape]
      have hone : addOne acc p = Except.ok (updateAssoc acc p.1
          ⟨ent.2.shape, (ent.2.data.zip p.2.data).map (fun pr => pr.1 + pr.2)⟩) := by
        unfold addOne
        rw [hlook]
        simp only [Bind.bind, Except.bind]
        rw [hadd]
        rfl
      have hinv2 : ∀ q ∈ rest, ∃ ent' : String × Tensor ℚ,
          List.find? (fun r => r.1 == q.1) (updateAssoc acc p.1
            ⟨ent.2.shape, (ent.2.data.zip p.2.data).map (fun pr => pr.1 + pr.2)⟩) =
            some ent' ∧ ent'.2.shape = q.2.shape := by
        intro q hq
        obtain ⟨ent', he', hs'⟩ := hinv q (List.mem_cons_of_mem p hq)
        have hqne : q.1 ≠ p.1 := by
          intro he
          exact hp1 (he ▸ List.mem_map_of_mem Prod.fst hq)
        exact ⟨ent', by rw [find?_updateAssoc_ne hqne, he'], hs'⟩
      obtain ⟨acc', hacc', hkeys⟩ := ih (updateAssoc acc p.1
        ⟨ent.2.shape, (ent.2.data.zip p.2.data).map (fun pr => pr.1 + pr.2)⟩) hnd' hinv2
      refine ⟨acc', ?_, ?_⟩
      · unfold addSet
        rw [List.foldlM_cons, hone]
        exact hacc'
      · rw [hkeys, updateAssoc_keys]

/-- Claim C5, amended: the code validates nothing, so it never fails with
a `ShapeMismatchError`; and when a second gradient dictionary consists of
a parameter name absent from the first, `aggregate` fails with the plain
dictionary `KeyError` from `aggregated[name] += grad` — the unrelated
lookup fault the claim's "rather than" clause rules out.  (Shape
mismatches on shared names are a separate, unclaimed story: torch
broadcasts the compatible ones silently.) -/
theorem aggregate_never_shape_mismatch :
    (∀ gs : List (GradientSet ℚ),
      aggregate_gradients gs ≠ Except.error Err.shapeMismatch) ∧
    (∀ (g0 : GradientSet ℚ) (n : String) (t : Tensor ℚ),
      (g0.map Prod.fst).Nodup → n ∉ g0.map Prod.fst →
      aggregate_gradients [g0, [(n, t)]] = Except.error Err.keyError) := by
  constructor
  · intro gs h
    cases gs with
    | nil => exact absurd h (by simp [aggregate_gradients])
    | cons g0 rest =>
        simp only [aggregate_gradients] at h
        cases hfold : List.foldlM addSet
            (g0.map (fun p => (p.1, zerosLike p.2))) (g0 :: rest) with
        | error e =>
            rw [hfold] at h
            simp only [Bind.bind, Except.bind] at h
            injection h with h'
            exact foldlM_error_ne_sm addSet
              (fun a x e1 h1 => addSet_error_ne_sm a x h1) (g0 :: rest) _ e hfold h'
        | ok s =>
            rw [hfold] at h
            exact absurd h (by simp [Bind.bind, Except.bind, Pure.pure, Except.pure])
  · intro g0 n t hnd hn
    have hinv : ∀ p ∈ g0, ∃ ent : String × Tensor ℚ,
        List.find? (fun q => q.1 == p.1)
          (g0.map (fun r => (r.1, zerosLike r.2))) = some ent ∧
        ent.2.shape = p.2.shape := by
      intro p hp
      exact ⟨(p.1, zerosLike p.2), find?_map_self g0 (fun r => zerosLike r.2) p hp hnd, rfl⟩
    obtain ⟨acc1, hacc1, hkeys⟩ :=
      addSet_ok_of_shapes g0 (g0.map (fun r => (r.1, zerosLike r.2))) hnd hinv
    have hkeys' : acc1.map Prod.fst = g0.map Prod.fst := by
      rw [hkeys, List.map_map]
      rfl
    have hnone : List.find? (fun q => q.1 == n) acc1 = none := by
      apply List.find?_eq_none.mpr
      intro x hx
      simp only [beq_eq_false_iff_ne, ne_eq, beq_iff_eq]
      intro he
      exact hn (by rw [← hkeys', ← he]; exact List.mem_map_of_mem Prod.fst hx)
    have herr : addSet acc1 [(n, t)] = Except.error Err.keyError := by
      unfold addSet
      rw [List.foldlM_cons]
      have hone : addOne acc1 (n, t) = Except.error Err.keyError := by
        unfold addOne lookupE
        rw [hnone]
        rfl
      rw [hone]
      rfl
    simp only [aggregate_gradients]
    rw [List.foldlM_cons, hacc1]
    show addSet acc1 [(n, t)] >>= _ >>= _ = _
    rw [herr]
    rfl

/-- Witness for C5's amended theorem: both conjuncts applied at a concrete
two-set input whose second set brings the fresh name `"b"`. -/
theorem aggregate_never_shape_mismatch_witness :
    aggregate_gradients [[("a", (⟨[1], [1]⟩ : Tensor ℚ))], [("b", ⟨[2], [1, 1]⟩)]] ≠
      Except.error Err.shapeMismatch ∧
    aggregate_gradients [[("a", (⟨[1], [1]⟩ : Tensor ℚ))], [("b", ⟨[2], [1, 1]⟩)]] =
      Except.error Err.keyError :=
  ⟨aggregate_never_shape_mismatch.1 [[("a", ⟨[1], [1]⟩)], [("b", ⟨[2], [1, 1]⟩)]],
   aggregate_never_shape_mismatch.2 [("a", ⟨[1], [1]⟩)] "b" ⟨[2], [1, 1]⟩
     (by decide) (by decide)⟩

/-! ### Claim C6 (confirmed) -/

/-- Claim C6: `gradient_statistics` on an empty GradientSet fails with the
empty-input error (Python's `max()` over the empty generator raises
`ValueError`, the reference realization of the spec's `EmptyInputError`). -/
theorem gradient_statistics_empty_fails :
    gradient_statistics ([] : GradientSet ℝ) = Except.error Err.emptyInput := rfl

/-! ### Claim C7 (corrected) -/

theorem quantizeTensor_data_length (b : ℕ) (t : Tensor ℚ) :
    (quantizeTensor b t).1.data.length = t.data.length := by
  unfold quantizeTensor
  by_cases hs : 0 < scaleOf b t
  · rw [if_pos hs]
    exact List.length_map _ _
  · rw [if_neg hs]
    exact List.length_map _ _

theorem quantized_numel (g : GradientSet ℚ) (b : ℕ) :
    ((quantize_gradients g b).gradients.map (fun p => p.2.data.length)).sum =
      totalNumel g := by
  unfold quantize_gradients totalNumel
  rw [List.map_map]
  congr 1
  apply List.map_congr_left
  intro p _
  exact quantizeTensor_data_length b p.2

theorem quantized_params_length (g : GradientSet ℚ) (b : ℕ) :
    (quantize_gradients g b).params.length = g.length := by
  unfold quantize_gradients
  exact List.length_map _ _

theorem original_size_eq (g : GradientSet ℚ) :
    (g.map (fun p => p.2.data.length * 4)).sum = totalNumel g * 4 := by
  unfold totalNumel
  induction g with
  | nil => rfl
  | cons p rest ih =>
      rw [List.map_cons, List.map_cons, List.sum_cons, List.sum_cons, ih]
      ring

/-- The ratio the code reports for an 8-bit quantized payload:
`4·E / (E + 16·P)` for `E` total elements over `P` tensors. -/
def quantRatio (g : GradientSet ℚ) : ℚ :=
  ((totalNumel g * 4 : ℕ) : ℚ) / ((totalNumel g + g.length * 16 : ℕ) : ℚ)

/-- Claim C7, as stated, is false: a single non-constant two-element
tensor estimates at `8` bytes dense but `2 + 16 = 18` bytes quantized, a
ratio of `8/18 < 1` — the 16-byte per-tensor parameter overhead swamps
small tensors, non-constancy notwithstanding. -/
theorem estimate_ratio_small_counterexample :
    minList (⟨[2], [0, 1]⟩ : Tensor ℚ).data ≠ maxList (⟨[2], [0, 1]⟩ : Tensor ℚ).data ∧
    estimate_compression_ratio gSmall (.qenv (quantize_gradients gSmall 8)) =
      Except.ok (8 / 18) ∧
    ¬ (1 : ℚ) < 8 / 18 := by
  refine ⟨?_, ?_, by norm_num⟩
  · show minList [(0 : ℚ), 1] ≠ maxList [(0 : ℚ), 1]
    norm_num [minList, maxList, min_def, max_def]
  · show Except.ok (if 0 < (((quantize_gradients gSmall 8).gradients.map
        (fun p => p.2.data.length)).sum + (quantize_gradients gSmall 8).params.length * 16)
      then (((gSmall.map (fun p => p.2.data.length * 4)).sum : ℕ) : ℚ) /
        ((((quantize_gradients gSmall 8).gradients.map (fun p => p.2.data.length)).sum +
          (quantize_gradients gSmall 8).params.length * 16 : ℕ) : ℚ)
      else 1) = Except.ok (8 / 18)
    rw [quantized_numel, quantized_params_length, original_size_eq]
    have h1 : totalNumel gSmall = 2 := rfl
    have h2 : gSmall.length = 1 := rfl
    rw [h1, h2]
    norm_num

/-- Claim C7, amended: the estimated ratio for an 8-bit quantized payload
is `4·E / (E + 16·P)` (`E` total elements, `P` tensors), which exceeds `1`
exactly when `3·E > 16·P`; whether any tensor is non-constant is
irrelevant to the estimate.  The claim as stated fails for small tensors
(see the counterexample) and holds under the size condition. -/
theorem estimate_ratio_quantize_gt_one (g : GradientSet ℚ)
    (hsize : 16 * g.length < 3 * totalNumel g) :
    estimate_compression_ratio g (.qenv (quantize_gradients g 8)) =
      Except.ok (quantRatio g) ∧ 1 < quantRatio g := by
  have hE : 1 ≤ totalNumel g := by omega
  have hcs : 0 < totalNumel g + g.length * 16 := by omega
  constructor
  · show Except.ok (if 0 < (((quantize_gradients g 8).gradients.map
        (fun p => p.2.data.length)).sum + (quantize_gradients g 8).params.length * 16)
      then (((g.map (fun p => p.2.data.length * 4)).sum : ℕ) : ℚ) /
        ((((quantize_gradients g 8).gradients.map (fun p => p.2.data.length)).sum +
          (quantize_gradients g 8).params.length * 16 : ℕ) : ℚ)
      else 1) = Except.ok (quantRatio g)
    rw [quantized_numel, quantized_params_length, original_size_eq, if_pos hcs]
    rfl
  · unfold quantRatio
    rw [one_lt_div (by exact_mod_cast hcs)]
    exact_mod_cast by omega

/-- Witness for C7's amended theorem at `gSix` (six elements, one tensor). -/
theorem estimate_ratio_quantize_gt_one_witness :
    16 * gSix.length < 3 * totalNumel gSix ∧
    (estimate_compression_ratio gSix (.qenv (quantize_gradients gSix 8)) =
      Except.ok (quantRatio gSix) ∧ 1 < quantRatio gSix) :=
  ⟨by decide, estimate_ratio_quantize_gt_one gSix (by decide)⟩

/-! ### Claim C8 (confirmed) -/

/-- The gradient set scaled elementwise by `c` — the dictionary the
clipping branch of `clip_gradients` builds. -/
def scaleGS (c : ℝ) (g : GradientSet ℝ) : GradientSet ℝ :=
  g.map (fun p => (p.1, ⟨p.2.shape, p.2.data.map (fun x => x * c)⟩))

theorem ssq_nonneg (t : Tensor ℝ) : 0 ≤ ssq t := by
  unfold ssq
  apply List.sum_nonneg
  intro x hx
  obtain ⟨y, _, rfl⟩ := List.mem_map.mp hx
  positivity

theorem sum_norm_sq_eq (g : GradientSet ℝ) :
    (g.map (fun p => tensorNorm p.2 ^ 2)).sum = (g.map (fun p => ssq p.2)).sum := by
  congr 1
  apply List.map_congr_left
  intro p _
  unfold tensorNorm
  exact Real.sq_sqrt (ssq_nonneg p.2)

theorem ssq_scale (c : ℝ) (t : Tensor ℝ) :
    ssq ⟨t.shape, t.data.map (fun x => x * c)⟩ = c ^ 2 * ssq t := by
  unfold ssq
  show ((t.data.map (fun x => x * c)).map (fun x => x ^ 2)).sum =
    c ^ 2 * ((t.data.map (fun x => x ^ 2)).sum)
  rw [List.map_map]
  induction t.data with
  | nil => simp
  | cons a as ih =>
      rw [List.map_cons, List.map_cons, List.sum_cons, List.sum_cons, ih]
      show (a * c) ^ 2 + c ^ 2 * (as.map (fun x => x ^ 2)).sum = _
      ring

theorem sum_map_mul_const (c : ℝ) (f : (String × Tensor ℝ) → ℝ) (g : GradientSet ℝ) :
    (g.map (fun p => c * f p)).sum = c * (g.map f).sum := by
  induction g with
  | nil => simp
  | cons p rest ih =>
      rw [List.map_cons, List.map_cons, List.sum_cons, List.sum_cons, ih]
      ring

theorem norm_scaleGS (c : ℝ) (g : GradientSet ℝ) :
    compute_gradient_norm (scaleGS c g) = |c| * compute_gradient_norm g := by
  unfold compute_gradient_norm scaleGS
  rw [List.map_map]
  have hstep : g.map ((fun p => tensorNorm p.2 ^ 2) ∘
      (fun p : String × Tensor ℝ => (p.1, ⟨p.2.shape, p.2.data.map (fun x => x * c)⟩))) =
      g.map (fun p => c ^ 2 * ssq p.2) := by
    apply List.map_congr_left
    intro p _
    show tensorNorm ⟨p.2.shape, p.2.data.map (fun x => x * c)⟩ ^ 2 = c ^ 2 * ssq p.2
    unfold tensorNorm
    rw [Real.sq_sqrt (ssq_nonneg _), ssq_scale]
  rw [hstep, sum_map_mul_const, Real.sqrt_mul (sq_nonneg c), Real.sqrt_sq_eq_abs,
    sum_norm_sq_eq]

/-- Claim C8: clipping is idempotent for every `max_norm > 0` — after one
clip the norm is `m·n/(n + 1e-6) < m`, so the second clip takes the
no-op branch. -/
theorem clip_idempotent (g : GradientSet ℝ) (m : ℝ) (hm : 0 < m) :
    clip_gradients (clip_gradients g m) m = clip_gradients g m := by
  by_cases h : m < compute_gradient_norm g
  · have hclip : clip_gradients g m =
        scaleGS (m / (compute_gradient_norm g + 1 / 1000000)) g := by
      unfold clip_gradients scaleGS
      rw [if_pos h]
    set n := compute_gradient_norm g with hn
    set c := m / (n + 1 / 1000000) with hc
    have hn0 : 0 ≤ n := Real.sqrt_nonneg _
    have hcpos : 0 < c := div_pos hm (by linarith)
    have hnorm : compute_gradient_norm (scaleGS c g) = c * n := by
      rw [norm_scaleGS, abs_of_pos hcpos]
    have hle : c * n ≤ m := by
      rw [hc, div_mul_eq_mul_div, div_le_iff (by linarith : (0 : ℝ) < n + 1 / 1000000)]
      nlinarith
    rw [hclip]
    unfold clip_gradients
    rw [if_neg (not_lt.mpr (by rw [hnorm]; exact hle))]
  · have e : clip_gradients g m = g := by
      unfold clip_gradients
      rw [if_neg h]
    rw [e]
    exact e

/-- Witness for C8 at `gNorm3`, `max_norm = 1` (the tensor's norm is 3, so
the clipping branch actually fires). -/
theorem clip_idempotent_witness :
    (0 : ℝ) < 1 ∧
    clip_gradients (clip_gradients gNorm3 1) 1 = clip_gradients gNorm3 1 :=
  ⟨by norm_num, clip_idempotent gNorm3 1 (by norm_num)⟩

end GlinClient
